import Mathlib

/-!
Shallow embedding of the harvesting/aggregation core of `bms_rankings.py`
(and the checkpoint-loading variant `bmshype.py`).
-/

namespace BMS

/-- Characters removed by Python `str.strip()` with no argument. -/
def isPySpace (c : Char) : Bool :=
  c == ' ' || c == '\t' || c == '\n' || c == '\x0d' || c == '\x0b' || c == '\x0c'

/-- Python `s.strip()`: drop leading and trailing whitespace. -/
def stripChars (s : List Char) : List Char :=
  ((s.dropWhile isPySpace).reverse.dropWhile isPySpace).reverse

/-- `title.rsplit("(", 1)[0]`: the part of the string before the last `'('`
(the whole string when it has no `'('`). -/
def beforeLastParen (s : List Char) : List Char :=
  match s.reverse.dropWhile (fun c => c != '(') with
  | [] => s
  | _ :: rest => rest.reverse

/-- `clean_title` from `bms_rankings.py` line 128 / `bmshype.py` line 49:
`title.rsplit("(", 1)[0].strip()`. -/
def clean_title (s : List Char) : List Char :=
  stripChars (beforeLastParen s)

example : clean_title "Movie (2024)".toList = "Movie".toList := by decide

/-! ## The fetch-retry controller of `bms_rankings.py` (`fetch_movies_for_city`) -/

/-- One entry of the `hits` array of the JSON payload.  Only the two fields
the code reads (`hit.get("TYPE")`, `hit["TITLE"]`) are modelled; each is
`Option` because the code tests for their presence. -/
structure Hit where
  TYPE : Option (List Char)
  TITLE : Option (List Char)
deriving DecidableEq

/-- The `movies` list comprehension (lines 195-199): keep hits with
`TYPE == "MT"` and a `TITLE` key, and clean each title. -/
def moviesOf (hits : List Hit) : List (List Char) :=
  hits.filterMap fun h =>
    if h.TYPE = some "MT".toList then h.TITLE.map clean_title else none

/-- `ranked = {f"rank{i+1}": title for i, title in enumerate(movies[:8])}`
(line 201).  The dict key `"rank{r}"` is represented by the rank number `r`
itself (the aggregation loop recovers `r` from the key via
`int(rank_key.replace("rank", ""))`, the exact inverse of the construction;
see `parseRank_roundtrip`). -/
def mkRanked (movies : List (List Char)) : List (Nat × List Char) :=
  (movies.take 8).enum.map fun p => (p.1 + 1, p.2)

/-- What one attempt's HTTP interaction yields, as seen by the controller:
either a response with a status code and a body (`none` when `.json()`
would fail to parse it), or an exception raised by the request itself. -/
inductive AttemptOutcome where
  | resp (status : Nat) (body : Option (List Hit))
  | exn (msg : List Char)
deriving DecidableEq

/-- How the controller's body reacts to one attempt's outcome. -/
inductive Classified where
  | blocked
  | success (hits : List Hit)
  | error (msg : List Char)
deriving DecidableEq

/-- Classification performed by lines 183-199: statuses 403/429 take the
block branch; `raise_for_status()` raises for any 4xx/5xx status; a body
that is not parseable JSON makes `response.json()` raise; otherwise the
attempt succeeds with the parsed `hits`. -/
def classify : AttemptOutcome → Classified
  | .exn m => .error m
  | .resp s b =>
    if s = 403 ∨ s = 429 then .blocked
    else if 400 ≤ s ∧ s < 600 then .error "HTTPError".toList
    else
      match b with
      | none => .error "JSONDecodeError".toList
      | some hits => .success hits

/-- The record appended to the shared `failures` list (lines 207-211). -/
structure FailureRecord where
  region : List Char
  code : List Char
  error : List Char
deriving DecidableEq

/-- Everything observable about one call of `fetch_movies_for_city`:
the returned pair (`region`, `ranked`), the failure records it appended,
how often it called `reset_identity()`, the `time.sleep(2 ** attempt)`
back-off delays it inserted (in order), and the identity generation used
by each issued attempt (generation `g + 1` is the fresh identity acquired
after the `g`-th reset). -/
structure FetchResult where
  region : List Char
  ranked : List (Nat × List Char)
  failures : List FailureRecord
  resets : Nat
  backoffs : List Nat
  idents : List Nat
deriving DecidableEq

/-- A work unit: one entry of `allcities.json`. -/
structure City where
  RegionName : List Char
  RegionCode : List Char
deriving DecidableEq

def RETRY_LIMIT : Nat := 3

/-- The `for attempt in range(RETRY_LIMIT)` loop (lines 180-214).
`attempts` is the list of remaining attempt indices, `gen` the identity
generation currently held.  Blocked attempts rotate the identity and
record a back-off of `2 ^ attempt`; an exception on the last attempt
appends a `FailureRecord` and returns the empty dict; an exception on an
earlier attempt just continues; falling off the loop (last attempt
blocked) returns the empty dict with no failure record (line 214). -/
def runAttempts (env : Nat → AttemptOutcome) (city : City) :
    List Nat → Nat → Nat → List Nat → List Nat → FetchResult
  | [], _, resets, backoffs, idents =>
    { region := city.RegionName, ranked := [], failures := [],
      resets := resets, backoffs := backoffs, idents := idents }
  | a :: rest, gen, resets, backoffs, idents =>
    match classify (env a) with
    | .blocked =>
      runAttempts env city rest (gen + 1) (resets + 1)
        (backoffs ++ [2 ^ a]) (idents ++ [gen])
    | .success hits =>
      { region := city.RegionName, ranked := mkRanked (moviesOf hits),
        failures := [], resets := resets, backoffs := backoffs,
        idents := idents ++ [gen] }
    | .error m =>
      if a = RETRY_LIMIT - 1 then
        { region := city.RegionName, ranked := [],
          failures := [{ region := city.RegionName, code := city.RegionCode,
                         error := m }],
          resets := resets, backoffs := backoffs, idents := idents ++ [gen] }
      else
        runAttempts env city rest gen resets backoffs (idents ++ [gen])

/-- `fetch_movies_for_city(city, ...)` under a deterministic environment
`env` giving the outcome of the attempt with each index. -/
def fetch_movies_for_city (env : Nat → AttemptOutcome) (city : City) : FetchResult :=
  runAttempts env city (List.range RETRY_LIMIT) 0 0 [] []

/-! ## The aggregation loop of `main` in `bms_rankings.py` -/

/-- `movie_points[t] += p` on a `defaultdict(int)`, modelled as an
insertion-ordered association list: a missing key is appended at the end
(Python dicts preserve insertion order), an existing key is updated in
place. -/
def addPoints : List (List Char × Int) → List Char → Int → List (List Char × Int)
  | [], t, p => [(t, p)]
  | (k, v) :: rest, t, p =>
    if k = t then (k, v + p) :: rest else (k, v) :: addPoints rest t p

/-- `movie_city_count[t].add(r)` on a `defaultdict(set)`; the set is
modelled as a list without duplicate insertion. -/
def addMember : List (List Char × List (List Char)) → List Char → List Char →
    List (List Char × List (List Char))
  | [], t, r => [(t, [r])]
  | (k, s) :: rest, t, r =>
    if k = t then (k, if r ∈ s then s else s ++ [r]) :: rest
    else (k, s) :: addMember rest t r

/-- The two accumulator maps of `main` (lines 222-223). -/
structure AggState where
  movie_points : List (List Char × Int)
  movie_city_count : List (List Char × List (List Char))
deriving DecidableEq

def initAgg : AggState := { movie_points := [], movie_city_count := [] }

/-- Lines 237-241: fold one unit's `ranked_movies` dict into the maps;
`points = 9 - rank`. -/
def foldUnit (st : AggState) (region : List Char)
    (ranked : List (Nat × List Char)) : AggState :=
  ranked.foldl
    (fun st rt =>
      { movie_points := addPoints st.movie_points rt.2 (9 - (rt.1 : Int)),
        movie_city_count := addMember st.movie_city_count rt.2 region })
    st

/-- The `as_completed` consumption loop (lines 233-241) applied to a list
of unit results in completion order: only units with a non-empty
`ranked_movies` are folded (`if ranked_movies:`). -/
def foldResults (results : List FetchResult) : AggState :=
  results.foldl
    (fun st r => if r.ranked.isEmpty then st else foldUnit st r.region r.ranked)
    initAgg

/-- One whole run's fetch phase: every submitted unit yields exactly one
result. -/
def runAll (units : List (City × (Nat → AttemptOutcome))) : List FetchResult :=
  units.map fun u => fetch_movies_for_city u.2 u.1

/-- `success_cities = len(all_rankings)`: units whose returned dict was
non-empty (only those are inserted into `all_rankings`, line 235-236). -/
def successCount (results : List FetchResult) : Nat :=
  (results.filter (fun r => !r.ranked.isEmpty)).length

/-- The shared `failures` list at the end of a run. -/
def failLog (results : List FetchResult) : List FailureRecord :=
  (results.map (·.failures)).flatten

/-! ## The leaderboard (`bms_rankings.py` line 261) -/

/-- The key order of `sorted(..., key=lambda x: x[1], reverse=True)`:
entry `a` may come before `b` iff `b`'s points do not exceed `a`'s. -/
def pointsGE (a b : List Char × Int) : Prop := b.2 ≤ a.2

instance : DecidableRel pointsGE := fun a b => inferInstanceAs (Decidable (b.2 ≤ a.2))
instance : IsTotal (List Char × Int) pointsGE := ⟨fun a b => le_total b.2 a.2⟩
instance : IsTrans (List Char × Int) pointsGE := ⟨fun _ _ _ h1 h2 => le_trans h2 h1⟩

/-- `sorted(movie_points.items(), key=lambda x: x[1], reverse=True)`.
Python's `sorted` is specified to be stable; insertion sort is stable and
any two stable sorts under the same key agree, so this is an exact model. -/
def sortByPointsDesc (m : List (List Char × Int)) : List (List Char × Int) :=
  List.insertionSort pointsGE m

/-- `top_movies = sorted(...)[:20]` (line 261). -/
def top_movies (m : List (List Char × Int)) : List (List Char × Int) :=
  (sortByPointsDesc m).take 20

/-- `movie_points[t]` read as a `defaultdict(int)`: 0 for a missing key. -/
def lookupPoints : List (List Char × Int) → List Char → Int
  | [], _ => 0
  | (k, v) :: rest, t => if k = t then v else lookupPoints rest t

/-- `movie_city_count[t]` read as a `defaultdict(set)`: empty for a
missing key. -/
def lookupMembers : List (List Char × List (List Char)) → List Char → List (List Char)
  | [], _ => []
  | (k, s) :: rest, t => if k = t then s else lookupMembers rest t

/-! ## The checkpoint-loading loop of `bmshype.py` (lines 145-153) -/

/-- `s.replace("rank", "")`: remove every left-to-right, non-overlapping
occurrence of the substring `"rank"`. -/
def stripRank : List Char → List Char
  | 'r' :: 'a' :: 'n' :: 'k' :: rest => stripRank rest
  | c :: rest => c :: stripRank rest
  | [] => []

/-- Value of a non-empty all-digit string. -/
def parseDigits : List Char → Option Nat
  | [] => none
  | ds =>
    if ds.all (·.isDigit) then
      some (ds.foldl (fun n c => n * 10 + (c.toNat - '0'.toNat)) 0)
    else none

/-- Python `int(s)`: surrounding whitespace stripped, an optional sign,
then a non-empty digit string; anything else raises `ValueError`
(returned as `none`; underscore digit separators are not modelled). -/
def parseInt (s : List Char) : Option Int :=
  match stripChars s with
  | '-' :: ds => (parseDigits ds).map (fun n => -(n : Int))
  | '+' :: ds => (parseDigits ds).map (fun n => (n : Int))
  | ds => (parseDigits ds).map (fun n => (n : Int))

/-- `int(rank_key.replace("rank", ""))` (`bmshype.py` line 138/148),
`none` when `int()` raises. -/
def parseRank (key : List Char) : Option Int :=
  parseInt (stripRank key)

example : parseRank "rank1".toList = some 1 ∧ parseRank "rank8".toList = some 8 ∧
    parseRank "rank10".toList = some 10 ∧ parseRank "rankX".toList = none := by decide

/-- One iteration of the inner checkpoint-loading loop of `bmshype.py`
(lines 146-153): the rank is parsed from the raw JSON key of the
checkpoint file; a `ValueError` from `int()` is swallowed by the bare
`except: continue` and the entry is skipped. -/
def foldCheckpointEntry (st : AggState) (region : List Char)
    (entry : List Char × List Char) : AggState :=
  match parseRank entry.1 with
  | none => st
  | some rank =>
    { movie_points := addPoints st.movie_points entry.2 (9 - rank),
      movie_city_count := addMember st.movie_city_count entry.2 region }

/-! ## The tweet builder of `bms_rankings.py` (lines 261-279) -/

/-- `re.sub(r"\(.*?\)", "", title)`: repeatedly delete the leftmost
non-greedy parenthesised group (an `'('`, the shortest character run,
then a `')'`); an `'('` with no later `')'` starts no match. -/
def removeParenGroupsAux : Nat → List Char → List Char
  | 0, l => l
  | _, [] => []
  | fuel + 1, c :: rest =>
    if c = '(' then
      if ')' ∈ rest then removeParenGroupsAux fuel ((rest.dropWhile (· != ')')).tail)
      else c :: rest
    else c :: removeParenGroupsAux fuel rest

/-- Entry point for `removeParenGroupsAux` with enough fuel: every
recursive step consumes at least one character, so fuel `l.length` makes
the fuel-exhausted case unreachable. -/
def removeParenGroups (l : List Char) : List Char :=
  removeParenGroupsAux l.length l

/-- `clean_hashtag` (lines 131-135): drop parenthesised groups, keep only
ASCII alphanumerics and spaces, drop the spaces, prepend `'#'`. -/
def clean_hashtag (title : List Char) : List Char :=
  '#' :: ((removeParenGroups title).filter
    (fun c => c.isAlphanum || c == ' ')).filter (fun c => c != ' ')

example : clean_hashtag "Avatar: Fire & Ash (3D) (2025)".toList = "#AvatarFireAsh".toList := by
  decide

/-- `f"{idx}. {tag} | P:{points} | C:{cities_count}\n"` (line 272). -/
def tweetLine (idx : Nat) (movie : List Char) (points : Int)
    (citiesCount : Nat) : List Char :=
  (toString idx).toList ++ ". ".toList ++ clean_hashtag movie ++
    " | P:".toList ++ (toString points).toList ++
    " | C:".toList ++ (toString citiesCount).toList ++ ['\n']

def char_limit : Nat := 280

/-- `header = f"Top 20 Trending Movies on BookMyShow - {tweet_date}\n\n"`
(line 264). -/
def tweetHeader (tweetDate : List Char) : List Char :=
  "Top 20 Trending Movies on BookMyShow - ".toList ++ tweetDate ++ ['\n', '\n']

/-- The accumulation loop (lines 269-277) over `enumerate(top_movies, 1)`:
a line is appended only while `len(header + tweet_body + line) <=
char_limit`; the first line that does not fit ends the loop (`break`). -/
def buildBody (header : List Char) (st : AggState) :
    List (List Char × Int) → Nat → List Char → List Char
  | [], _, body => body
  | (movie, points) :: rest, idx, body =>
    if (header ++ body ++ tweetLine idx movie points
          (lookupMembers st.movie_city_count movie).length).length ≤ char_limit then
      buildBody header st rest (idx + 1)
        (body ++ tweetLine idx movie points
          (lookupMembers st.movie_city_count movie).length)
    else body

/-- `final_tweet = header + tweet_body.strip()` (line 279). -/
def finalTweet (tweetDate : List Char) (st : AggState) : List Char :=
  tweetHeader tweetDate ++
    stripChars (buildBody (tweetHeader tweetDate) st (top_movies st.movie_points) 1 [])

/-! ## Classification predicates and concrete fixtures -/

def isSuccessB : Classified → Bool
  | .success _ => true
  | _ => false

def isBlockedB : Classified → Bool
  | .blocked => true
  | _ => false

/-- Per-unit point contribution of a completed unit result to a title's
total (zero when `ranked_movies` is empty, since such results are not
folded). -/
def resultContrib (t : List Char) (r : FetchResult) : Int :=
  if r.ranked.isEmpty then 0
  else ((r.ranked.filter (fun p => p.2 == t)).map (fun p => 9 - (p.1 : Int))).sum

/-- A unit result adds label `x` to title `t`'s membership set iff it was
folded (non-empty payload), its region is `x` and some rank entry carries
`t`. -/
def contributesMember (t x : List Char) (r : FetchResult) : Prop :=
  r.ranked.isEmpty = false ∧ r.region = x ∧ ∃ p ∈ r.ranked, p.2 = t

/-- A sample work unit. -/
def city0 : City := { RegionName := "Mumbai".toList, RegionCode := "MUMB".toList }

/-- An endpoint that answers HTTP 403 to every attempt. -/
def envAllBlocked : Nat → AttemptOutcome := fun _ => .resp 403 none

/-- An endpoint whose every attempt raises a timeout exception. -/
def envAllTimeout : Nat → AttemptOutcome := fun _ => .exn "ReadTimeout".toList

/-- A successful payload with two movie hits. -/
def hits0 : List Hit :=
  [{ TYPE := some "MT".toList, TITLE := some "Alpha (2024)".toList },
   { TYPE := some "MT".toList, TITLE := some "Beta".toList }]

/-- Rate-limited on attempts 0 and 1, successful on attempt 2. -/
def envBlockedTwice : Nat → AttemptOutcome :=
  fun a => if a < 2 then .resp 429 none else .resp 200 (some hits0)

/-- Blocked on attempts 0 and 2, transient error on attempt 1. -/
def envMixed : Nat → AttemptOutcome :=
  fun a => if a = 1 then .exn "timeout".toList else .resp 403 none

/-- A unit result reporting only "Alpha" at rank 1 from CityA. -/
def urAlpha : FetchResult :=
  { region := "CityA".toList, ranked := [(1, "Alpha".toList)], failures := [],
    resets := 0, backoffs := [], idents := [] }

/-- A unit result reporting only "Beta" at rank 1 from CityB. -/
def urBeta : FetchResult :=
  { region := "CityB".toList, ranked := [(1, "Beta".toList)], failures := [],
    resets := 0, backoffs := [], idents := [] }

/-- A full eight-title de-duplicated unit payload. -/
def movies8 : List (List Char) :=
  ["Alpha".toList, "Beta".toList, "Gamma".toList, "Delta".toList,
   "Epsilon".toList, "Zeta".toList, "Eta".toList, "Theta".toList]

/-! ## Helper lemmas about the string primitives -/

theorem dropWhile_head_false {α : Type} (p : α → Bool) :
    ∀ (l : List α) (c : α) (t : List α), l.dropWhile p = c :: t → p c = false := by
  intro l
  induction l with
  | nil => intro c t h; simp [List.dropWhile] at h
  | cons a l ih =>
    intro c t h
    by_cases hpa : p a
    · rw [List.dropWhile_cons_of_pos hpa] at h
      exact ih c t h
    · rw [List.dropWhile_cons_of_neg hpa] at h
      injection h with h1 h2
      subst h1
      simpa using hpa

theorem dropWhile_idem {α : Type} (p : α → Bool) (l : List α) :
    (l.dropWhile p).dropWhile p = l.dropWhile p := by
  cases h : l.dropWhile p with
  | nil => simp
  | cons c t =>
    have hc := dropWhile_head_false p l c t h
    rw [List.dropWhile_cons_of_neg (by simp [hc])]

theorem dropWhile_eq_nil_of_all {α : Type} (p : α → Bool) :
    ∀ l : List α, (∀ x ∈ l, p x = true) → l.dropWhile p = [] := by
  intro l
  induction l with
  | nil => intro _; rfl
  | cons a l ih =>
    intro h
    rw [List.dropWhile_cons_of_pos (h a (by simp))]
    exact ih fun x hx => h x (by simp [hx])

theorem dropWhile_append_all {α : Type} (p : α → Bool) :
    ∀ xs ys : List α, (∀ x ∈ xs, p x = true) →
      (xs ++ ys).dropWhile p = ys.dropWhile p := by
  intro xs
  induction xs with
  | nil => simp
  | cons a xs ih =>
    intro ys h
    rw [List.cons_append, List.dropWhile_cons_of_pos (h a (by simp))]
    exact ih ys fun x hx => h x (by simp [hx])

theorem stripChars_idem (s : List Char) : stripChars (stripChars s) = stripChars s := by
  unfold stripChars
  generalize ht : s.dropWhile isPySpace = t
  generalize hr : t.reverse.dropWhile isPySpace = r
  have hdw : r.reverse.dropWhile isPySpace = r.reverse := by
    cases hrr : r.reverse with
    | nil => simp
    | cons c u =>
      have htw : t.reverse.takeWhile isPySpace ++ r = t.reverse := by
        rw [← hr]; exact List.takeWhile_append_dropWhile isPySpace t.reverse
      have ht2 : t = c :: (u ++ (t.reverse.takeWhile isPySpace).reverse) := by
        have h3 := congrArg List.reverse htw
        rw [List.reverse_append, List.reverse_reverse] at h3
        rw [hrr] at h3
        exact h3.symm
      have hc : isPySpace c = false := by
        apply dropWhile_head_false isPySpace s c
          (u ++ (t.reverse.takeWhile isPySpace).reverse)
        rw [ht, ← ht2]
      rw [List.dropWhile_cons_of_neg (by simp [hc])]
  rw [hdw, List.reverse_reverse, ← hr, dropWhile_idem]

theorem stripChars_length_le (s : List Char) : (stripChars s).length ≤ s.length := by
  unfold stripChars
  have h1 := (List.dropWhile_sublist (l := s) isPySpace).length_le
  have h2 := (List.dropWhile_sublist (l := (s.dropWhile isPySpace).reverse) isPySpace).length_le
  simp only [List.length_reverse] at *
  omega

theorem mem_of_mem_stripChars {c : Char} {s : List Char} (h : c ∈ stripChars s) : c ∈ s := by
  unfold stripChars at h
  rw [List.mem_reverse] at h
  have h2 := List.dropWhile_subset (l := (s.dropWhile isPySpace).reverse) isPySpace h
  rw [List.mem_reverse] at h2
  exact List.dropWhile_subset isPySpace h2

theorem beforeLastParen_of_not_mem {s : List Char} (h : '(' ∉ s) :
    beforeLastParen s = s := by
  unfold beforeLastParen
  have hnil : s.reverse.dropWhile (fun c => c != '(') = [] := by
    apply dropWhile_eq_nil_of_all
    intro x hx
    have hne : x ≠ '(' := fun he => h (he ▸ List.mem_reverse.mp hx)
    simpa using hne
  rw [hnil]

theorem beforeLastParen_append {b q : List Char} (hq : '(' ∉ q) :
    beforeLastParen (b ++ '(' :: q) = b := by
  unfold beforeLastParen
  have hrev : (b ++ '(' :: q).reverse = q.reverse ++ '(' :: b.reverse := by
    simp [List.reverse_append]
  rw [hrev, dropWhile_append_all _ _ _ ?hall]
  case hall =>
    intro x hx
    have hne : x ≠ '(' := fun he => hq (he ▸ List.mem_reverse.mp hx)
    simpa using hne
  rw [List.dropWhile_cons_of_neg (by simp)]
  simp

theorem clean_title_of_not_mem {s : List Char} (h : '(' ∉ s) :
    clean_title s = stripChars s := by
  unfold clean_title
  rw [beforeLastParen_of_not_mem h]

theorem clean_title_append {b q : List Char} (hq : '(' ∉ q) :
    clean_title (b ++ '(' :: q) = stripChars b := by
  unfold clean_title
  rw [beforeLastParen_append hq]

/-- C9 counterexample: `clean_title` is not idempotent — a title carrying
two parenthetical qualifiers loses only the last one per pass, so its
already-normalized form `"Mission: Part (One)"` still changes when
normalized again. -/
theorem clean_title_idem_fails :
    clean_title (clean_title "Mission: Part (One) (2024)".toList) ≠
      clean_title "Mission: Part (One) (2024)".toList := by decide

/-- C9 (amended): `clean_title` is idempotent on titles containing at most
one `'('`, and two titles sharing a base and differing only in the
trailing parenthetical qualifier normalize to the same key. -/
theorem clean_title_normalization :
    (∀ s : List Char, s.count '(' ≤ 1 →
      clean_title (clean_title s) = clean_title s) ∧
    (∀ b q1 q2 : List Char, '(' ∉ q1 → '(' ∉ q2 →
      clean_title (b ++ '(' :: q1) = clean_title (b ++ '(' :: q2)) := by
  constructor
  · intro s hcount
    by_cases hmem : '(' ∈ s
    · obtain ⟨b, q, rfl⟩ := List.append_of_mem hmem
      have hcb : b.count '(' = 0 ∧ q.count '(' = 0 := by
        rw [List.count_append, List.count_cons_self] at hcount
        omega
      have hb : '(' ∉ b := List.count_eq_zero.mp hcb.1
      have hq : '(' ∉ q := List.count_eq_zero.mp hcb.2
      rw [clean_title_append hq,
        clean_title_of_not_mem (fun hc => hb (mem_of_mem_stripChars hc)),
        stripChars_idem]
    · rw [clean_title_of_not_mem hmem,
        clean_title_of_not_mem (fun hc => hmem (mem_of_mem_stripChars hc)),
        stripChars_idem]
  · intro b q1 q2 h1 h2
    rw [clean_title_append h1, clean_title_append h2]

/-- C9 witness: the amended theorem applied to concrete titles —
idempotence on a one-qualifier title, and `"Movie (2024)"` vs
`"Movie (Re-release)"` normalizing to the same key. -/
theorem clean_title_normalization_witness :
    clean_title (clean_title "Movie (2024)".toList) = clean_title "Movie (2024)".toList ∧
    clean_title ("Movie ".toList ++ '(' :: "2024)".toList) =
      clean_title ("Movie ".toList ++ '(' :: "Re-release)".toList) :=
  ⟨clean_title_normalization.1 _ (by decide),
   clean_title_normalization.2 _ _ _ (by decide) (by decide)⟩

/-! ## Helper lemmas about the fetch-retry controller -/

/-- When no attempt succeeds, the controller returns the empty dict, and
appends a failure record exactly when the last attempt raised. -/
theorem fetch_no_success (env : Nat → AttemptOutcome) (city : City)
    (h0 : isSuccessB (classify (env 0)) = false)
    (h1 : isSuccessB (classify (env 1)) = false)
    (h2 : isSuccessB (classify (env 2)) = false) :
    (fetch_movies_for_city env city).ranked = [] ∧
    (fetch_movies_for_city env city).failures =
      (match classify (env 2) with
       | .error m => [{ region := city.RegionName, code := city.RegionCode, error := m }]
       | _ => []) := by
  have hrange : List.range RETRY_LIMIT = [0, 1, 2] := by decide
  unfold fetch_movies_for_city
  rw [hrange]
  cases hc0 : classify (env 0) <;> cases hc1 : classify (env 1) <;>
    cases hc2 : classify (env 2) <;>
    simp_all [runAttempts, isSuccessB, RETRY_LIMIT]

/-- C2 counterexample: a unit blocked (HTTP 403) on every attempt exhausts
all `RETRY_LIMIT` attempts without success, yet the controller records NO
`FailureRecord` — it falls off the retry loop and returns the empty dict
without appending to `failures` (line 214). -/
theorem all_blocked_no_failure_record :
    (fetch_movies_for_city envAllBlocked city0).ranked = [] ∧
    (fetch_movies_for_city envAllBlocked city0).failures = [] := by decide

/-- C2 (amended): exhausting all attempts without success always yields
the empty `UnitResult`, and no fault propagates (the controller is a total
function into `FetchResult`); but a `FailureRecord` is appended exactly
when the LAST attempt raised a transient error — when the last attempt is
classified blocked the empty result comes with no record. -/
theorem exhausted_attempts_empty_result (env : Nat → AttemptOutcome) (city : City)
    (h : ∀ a, a < RETRY_LIMIT → isSuccessB (classify (env a)) = false) :
    (fetch_movies_for_city env city).ranked = [] ∧
    (fetch_movies_for_city env city).failures =
      (match classify (env (RETRY_LIMIT - 1)) with
       | .error m => [{ region := city.RegionName, code := city.RegionCode, error := m }]
       | _ => []) :=
  fetch_no_success env city (h 0 (by decide)) (h 1 (by decide)) (h 2 (by decide))

/-- C2 witness: a unit whose three attempts all time out gets the empty
result plus exactly one failure record carrying its identifier, label and
error description. -/
theorem exhausted_attempts_empty_result_witness :
    (∀ a, a < RETRY_LIMIT → isSuccessB (classify (envAllTimeout a)) = false) ∧
    (fetch_movies_for_city envAllTimeout city0).ranked = [] ∧
    (fetch_movies_for_city envAllTimeout city0).failures =
      [{ region := city0.RegionName, code := city0.RegionCode,
         error := "ReadTimeout".toList }] := by
  refine ⟨by decide, ?_⟩
  exact exhausted_attempts_empty_result envAllTimeout city0 (by decide)

/-- C7 counterexample: a run whose attempts all end in transient errors
(no attempt succeeds) inserts NO back-off delay at all — `time.sleep(2 **
attempt)` is reached only in the 403/429 branch, so the claimed
deterministic `base^a` delay after every unsuccessful attempt is absent. -/
theorem transient_error_no_backoff :
    (fetch_movies_for_city envAllTimeout city0).backoffs = [] ∧
    isSuccessB (classify (envAllTimeout 0)) = false := by decide

/-- C7 (amended): the deterministic back-off `2 ^ a` is inserted exactly
after the attempts classified blocked (HTTP 403/429) among the attempts
executed before the first success; attempts ending in a transient error
insert no back-off (only the randomized pacing delay precedes the next
attempt). -/
theorem backoffs_exactly_blocked (env : Nat → AttemptOutcome) (city : City) :
    (fetch_movies_for_city env city).backoffs =
      (((List.range RETRY_LIMIT).takeWhile
          (fun a => !isSuccessB (classify (env a)))).filter
        (fun a => isBlockedB (classify (env a)))).map (fun a => 2 ^ a) := by
  have hrange : List.range RETRY_LIMIT = [0, 1, 2] := by decide
  unfold fetch_movies_for_city
  rw [hrange]
  cases hc0 : classify (env 0) <;> cases hc1 : classify (env 1) <;>
    cases hc2 : classify (env 2) <;>
    simp_all [runAttempts, isSuccessB, isBlockedB, RETRY_LIMIT]

/-- C6: with blocked classifications on attempts 0 and 1 and success on
attempt 2, the controller returns the parsed payload, has rotated the
identity exactly twice, appended no failure record, and issued the three
attempts under three distinct successively fresh identity generations. -/
theorem blocked_then_success (env : Nat → AttemptOutcome) (city : City) (hits : List Hit)
    (h0 : classify (env 0) = .blocked) (h1 : classify (env 1) = .blocked)
    (h2 : classify (env 2) = .success hits) :
    (fetch_movies_for_city env city).ranked = mkRanked (moviesOf hits) ∧
    (fetch_movies_for_city env city).resets = 2 ∧
    (fetch_movies_for_city env city).failures = [] ∧
    (fetch_movies_for_city env city).idents = [0, 1, 2] ∧
    (moviesOf hits ≠ [] → (fetch_movies_for_city env city).ranked ≠ []) := by
  have hrange : List.range RETRY_LIMIT = [0, 1, 2] := by decide
  unfold fetch_movies_for_city
  rw [hrange]
  have hmain : runAttempts env city [0, 1, 2] 0 0 [] [] =
      { region := city.RegionName, ranked := mkRanked (moviesOf hits),
        failures := [], resets := 2, backoffs := [1, 2], idents := [0, 1, 2] } := by
    simp [runAttempts, h0, h1, h2]
  rw [hmain]
  refine ⟨rfl, rfl, rfl, rfl, ?_⟩
  intro hne
  cases hm : moviesOf hits with
  | nil => exact absurd hm hne
  | cons a l =>
    apply List.ne_nil_of_length_pos
    simp [mkRanked, hm]

/-- C6 witness: a concrete endpoint rate-limited (HTTP 429) on attempts
0 and 1 and successful on attempt 2: two identity rotations, a non-empty
parsed payload. -/
theorem blocked_then_success_witness :
    classify (envBlockedTwice 0) = .blocked ∧
    classify (envBlockedTwice 1) = .blocked ∧
    classify (envBlockedTwice 2) = .success hits0 ∧
    (fetch_movies_for_city envBlockedTwice city0).resets = 2 ∧
    (fetch_movies_for_city envBlockedTwice city0).ranked ≠ [] := by
  refine ⟨by decide, by decide, by decide, ?_, ?_⟩
  · exact (blocked_then_success envBlockedTwice city0 hits0
      (by decide) (by decide) (by decide)).2.1
  · exact (blocked_then_success envBlockedTwice city0 hits0
      (by decide) (by decide) (by decide)).2.2.2.2 (by decide)

/-! ## Helper lemmas about the aggregation maps -/

theorem lookupPoints_addPoints (m : List (List Char × Int)) (u : List Char) (p : Int)
    (t : List Char) :
    lookupPoints (addPoints m u p) t = lookupPoints m t + (if u = t then p else 0) := by
  induction m with
  | nil => by_cases h : u = t <;> simp [addPoints, lookupPoints, h]
  | cons kv rest ih =>
    obtain ⟨k, v⟩ := kv
    by_cases hku : k = u
    · subst hku
      by_cases hkt : k = t
      · subst hkt; simp [addPoints, lookupPoints]
      · simp [addPoints, lookupPoints, hkt]
    · by_cases hkt : k = t
      · subst hkt
        have hut : u ≠ k := fun he => hku he.symm
        simp [addPoints, lookupPoints, hku, hut]
      · simp [addPoints, lookupPoints, hku, hkt, ih]

theorem lookupMembers_addMember (m : List (List Char × List (List Char)))
    (u r t : List Char) :
    lookupMembers (addMember m u r) t =
      if u = t then
        (if r ∈ lookupMembers m t then lookupMembers m t
         else lookupMembers m t ++ [r])
      else lookupMembers m t := by
  induction m with
  | nil => by_cases h : u = t <;> simp [addMember, lookupMembers, h]
  | cons kv rest ih =>
    obtain ⟨k, s⟩ := kv
    by_cases hku : k = u
    · subst hku
      by_cases hkt : k = t
      · subst hkt; simp [addMember, lookupMembers]
      · simp [addMember, lookupMembers, hkt]
    · by_cases hkt : k = t
      · subst hkt
        have hut : u ≠ k := fun he => hku he.symm
        simp [addMember, lookupMembers, hku, hut]
      · simp [addMember, lookupMembers, hku, hkt, ih]

/-- One step of the aggregation fold (definitional). -/
theorem foldUnit_cons (st : AggState) (region : List Char) (rk : Nat) (ti : List Char)
    (rest : List (Nat × List Char)) :
    foldUnit st region ((rk, ti) :: rest) =
      foldUnit { movie_points := addPoints st.movie_points ti (9 - (rk : Int)),
                 movie_city_count := addMember st.movie_city_count ti region }
        region rest := rfl

theorem foldUnit_points (es : List (Nat × List Char)) (st : AggState)
    (region t : List Char) :
    lookupPoints (foldUnit st region es).movie_points t =
      lookupPoints st.movie_points t +
        ((es.filter (fun p => p.2 == t)).map (fun p => 9 - (p.1 : Int))).sum := by
  induction es generalizing st with
  | nil => simp [foldUnit]
  | cons rt rest ih =>
    obtain ⟨rk, ti⟩ := rt
    rw [foldUnit_cons, ih]
    dsimp only
    rw [lookupPoints_addPoints]
    by_cases h : ti = t
    · subst h
      simp [List.filter_cons]
      omega
    · have hbe : (ti == t) = false := by simp [h]
      simp [List.filter_cons, hbe, h]

theorem foldUnit_members (es : List (Nat × List Char)) (st : AggState)
    (region t : List Char) :
    lookupMembers (foldUnit st region es).movie_city_count t =
      if (∃ p ∈ es, p.2 = t) ∧ region ∉ lookupMembers st.movie_city_count t
      then lookupMembers st.movie_city_count t ++ [region]
      else lookupMembers st.movie_city_count t := by
  induction es generalizing st with
  | nil => simp [foldUnit]
  | cons rt rest ih =>
    obtain ⟨rk, ti⟩ := rt
    rw [foldUnit_cons, ih]
    dsimp only
    by_cases hti : ti = t
    · subst hti
      by_cases hreg : region ∈ lookupMembers st.movie_city_count ti
      · have hmem : lookupMembers (addMember st.movie_city_count ti region) ti =
            lookupMembers st.movie_city_count ti := by
          rw [lookupMembers_addMember, if_pos rfl, if_pos hreg]
        rw [hmem, if_neg (fun hc => hc.2 hreg), if_neg (fun hc => hc.2 hreg)]
      · have hmem : lookupMembers (addMember st.movie_city_count ti region) ti =
            lookupMembers st.movie_city_count ti ++ [region] := by
          rw [lookupMembers_addMember, if_pos rfl, if_neg hreg]
        rw [hmem, if_neg (fun hc => hc.2 (by simp)),
          if_pos ⟨⟨(rk, ti), by simp, rfl⟩, hreg⟩]
    · have hmem : lookupMembers (addMember st.movie_city_count ti region) t =
          lookupMembers st.movie_city_count t := by
        rw [lookupMembers_addMember, if_neg hti]
      rw [hmem]
      have hiff : (∃ p ∈ ((rk, ti) :: rest), p.2 = t) ↔ (∃ p ∈ rest, p.2 = t) := by
        simp [hti]
      simp only [hiff]

theorem mem_foldUnit_members (es : List (Nat × List Char)) (st : AggState)
    (region t x : List Char) :
    x ∈ lookupMembers (foldUnit st region es).movie_city_count t ↔
      x ∈ lookupMembers st.movie_city_count t ∨
        (x = region ∧ ∃ p ∈ es, p.2 = t) := by
  rw [foldUnit_members]
  by_cases hex : ∃ p ∈ es, p.2 = t
  · by_cases hreg : region ∈ lookupMembers st.movie_city_count t
    · rw [if_neg (fun hc => hc.2 hreg)]
      constructor
      · exact Or.inl
      · rintro (h | ⟨rfl, -⟩)
        · exact h
        · exact hreg
    · rw [if_pos ⟨hex, hreg⟩]
      simp [hex]
  · rw [if_neg (fun hc => hex hc.1)]
    simp [hex]

theorem foldResults_points_aux (rs : List FetchResult) (st : AggState) (t : List Char) :
    lookupPoints ((rs.foldl
        (fun st r => if r.ranked.isEmpty then st else foldUnit st r.region r.ranked)
        st)).movie_points t =
      lookupPoints st.movie_points t + (rs.map (resultContrib t)).sum := by
  induction rs generalizing st with
  | nil => simp
  | cons r rest ih =>
    rw [List.foldl_cons, ih]
    by_cases hr : r.ranked.isEmpty
    · simp [hr, resultContrib]
    · rw [if_neg hr, foldUnit_points]
      simp only [resultContrib, if_neg hr, List.map_cons, List.sum_cons]
      omega

theorem foldResults_points (rs : List FetchResult) (t : List Char) :
    lookupPoints (foldResults rs).movie_points t = (rs.map (resultContrib t)).sum := by
  rw [foldResults, foldResults_points_aux]
  simp [initAgg, lookupPoints]

theorem foldResults_members_aux (rs : List FetchResult) (st : AggState)
    (t x : List Char) :
    x ∈ lookupMembers ((rs.foldl
        (fun st r => if r.ranked.isEmpty then st else foldUnit st r.region r.ranked)
        st)).movie_city_count t ↔
      x ∈ lookupMembers st.movie_city_count t ∨ ∃ r ∈ rs, contributesMember t x r := by
  induction rs generalizing st with
  | nil => simp
  | cons r rest ih =>
    rw [List.foldl_cons, ih]
    by_cases hr : r.ranked.isEmpty
    · rw [if_pos hr]
      have : ¬contributesMember t x r := fun hc => by
        rw [hc.1] at hr; exact Bool.false_ne_true (hr.symm ▸ rfl)
      simp [this]
    · have heq : r.ranked.isEmpty = false := by simpa using hr
      rw [if_neg hr, mem_foldUnit_members]
      constructor
      · rintro ((h | ⟨hx, hp⟩) | ⟨s, hs, hc⟩)
        · exact Or.inl h
        · exact Or.inr ⟨r, by simp, heq, hx.symm, hp⟩
        · exact Or.inr ⟨s, by simp [hs], hc⟩
      · rintro (h | ⟨s, hs, hc⟩)
        · exact Or.inl (Or.inl h)
        · rcases List.mem_cons.mp hs with rfl | hs'
          · exact Or.inl (Or.inr ⟨hc.2.1.symm, hc.2.2⟩)
          · exact Or.inr ⟨s, hs', hc⟩

theorem foldResults_members (rs : List FetchResult) (t x : List Char) :
    x ∈ lookupMembers (foldResults rs).movie_city_count t ↔
      ∃ r ∈ rs, contributesMember t x r := by
  rw [foldResults, foldResults_members_aux]
  simp [lookupMembers]

/-- C3 counterexample: the same two unit results folded in the two
possible completion orders produce different leaderboards — both titles
total 8 points and the tie is ordered by dict-insertion order, which
follows completion order. -/
theorem leaderboard_depends_on_order :
    List.Perm [urAlpha, urBeta] [urBeta, urAlpha] ∧
    top_movies (foldResults [urAlpha, urBeta]).movie_points ≠
      top_movies (foldResults [urBeta, urAlpha]).movie_points := by
  constructor
  · decide
  · decide

/-- C3 (amended): folding a fixed set of unit results in any completion
order yields the same point total and the same membership set for every
title; the full leaderboard, however, is not order-independent — among
equal point totals the order follows first insertion, which depends on
completion order. -/
theorem aggregation_perm_invariant (rs1 rs2 : List FetchResult) (h : rs1.Perm rs2)
    (t : List Char) :
    lookupPoints (foldResults rs1).movie_points t =
      lookupPoints (foldResults rs2).movie_points t ∧
    ∀ x, (x ∈ lookupMembers (foldResults rs1).movie_city_count t ↔
          x ∈ lookupMembers (foldResults rs2).movie_city_count t) := by
  constructor
  · rw [foldResults_points, foldResults_points]
    exact (h.map (resultContrib t)).sum_eq
  · intro x
    rw [foldResults_members, foldResults_members]
    constructor
    · rintro ⟨r, hr, hc⟩; exact ⟨r, h.mem_iff.mp hr, hc⟩
    · rintro ⟨r, hr, hc⟩; exact ⟨r, h.mem_iff.mpr hr, hc⟩

/-- C3 witness: the amended invariance applied to the two concrete
completion orders. -/
theorem aggregation_perm_invariant_witness :
    List.Perm [urAlpha, urBeta] [urBeta, urAlpha] ∧
    lookupPoints (foldResults [urAlpha, urBeta]).movie_points "Alpha".toList =
      lookupPoints (foldResults [urBeta, urAlpha]).movie_points "Alpha".toList :=
  ⟨by decide, (aggregation_perm_invariant _ _ (by decide) _).1⟩

/-! ## Ranked payload shape lemmas (for C4) -/

theorem mem_enumFrom_bounds {α : Type} :
    ∀ (l : List α) (k : Nat) (p : Nat × α),
      p ∈ l.enumFrom k → k ≤ p.1 ∧ p.1 < k + l.length := by
  intro l
  induction l with
  | nil => intro k p h; simp [List.enumFrom] at h
  | cons a l ih =>
    intro k p h
    rw [List.enumFrom_cons] at h
    rcases List.mem_cons.mp h with rfl | h'
    · exact ⟨le_refl _, by show k < k + (l.length + 1); omega⟩
    · have := ih (k + 1) p h'
      simp only [List.length_cons]
      omega

theorem mkRanked_map_snd (movies : List (List Char)) :
    (mkRanked movies).map Prod.snd = movies.take 8 := by
  unfold mkRanked
  rw [List.map_map]
  have hcomp : (Prod.snd ∘ fun p : Nat × List Char => (p.1 + 1, p.2)) = Prod.snd := rfl
  rw [hcomp]
  exact List.enumFrom_map_snd 0 _

theorem mem_mkRanked_rank {movies : List (List Char)} {r : Nat} {t : List Char}
    (h : (r, t) ∈ mkRanked movies) : 1 ≤ r ∧ r ≤ 8 := by
  unfold mkRanked at h
  obtain ⟨p, hp, heq⟩ := List.mem_map.mp h
  have hb := mem_enumFrom_bounds (movies.take 8) 0 p hp
  have hr : p.1 + 1 = r := congrArg Prod.fst heq
  have hlen : (movies.take 8).length ≤ 8 := by
    simp [List.length_take]
  omega

theorem filter_snd_eq_singleton :
    ∀ {es : List (Nat × List Char)} {r : Nat} {t : List Char},
      (es.map Prod.snd).Nodup → (r, t) ∈ es →
      es.filter (fun p => p.2 == t) = [(r, t)] := by
  intro es
  induction es with
  | nil => intro r t _ hmem; simp at hmem
  | cons a rest ih =>
    intro r t hnd hmem
    obtain ⟨rk, ti⟩ := a
    rw [List.map_cons, List.nodup_cons] at hnd
    rcases List.mem_cons.mp hmem with heq | hmem'
    · injection heq with h1 h2
      subst h1; subst h2
      rw [List.filter_cons, if_pos (by simp)]
      have hrest : rest.filter (fun p => p.2 == t) = [] := by
        rw [List.filter_eq_nil_iff]
        intro p hp hcontra
        have hpt : p.2 = t := by simpa using hcontra
        exact hnd.1 (hpt ▸ List.mem_map.mpr ⟨p, hp, rfl⟩)
      rw [hrest]
    · have hti : ti ≠ t := by
        intro he
        subst he
        exact hnd.1 (List.mem_map.mpr ⟨(r, ti), hmem', rfl⟩)
      rw [List.filter_cons, if_neg (by simpa using hti)]
      exact ih hnd.2 hmem'

/-- C4: in ranked-list mode with K = 8, folding a de-duplicated unit
payload gives the title at rank `r` exactly `(K+1) - r = 9 - r` points
(rank 1 → 8, rank 8 → 1), a strictly positive amount, and exactly one
membership credit from the unit's label. -/
theorem ranked_mode_contribution (movies : List (List Char)) (st : AggState)
    (region : List Char) (r : Nat) (t : List Char)
    (hnd : (movies.take 8).Nodup) (hmem : (r, t) ∈ mkRanked movies) :
    1 ≤ r ∧ r ≤ 8 ∧
    lookupPoints (foldUnit st region (mkRanked movies)).movie_points t =
      lookupPoints st.movie_points t + (9 - (r : Int)) ∧
    1 ≤ (9 : Int) - (r : Int) ∧
    lookupMembers (foldUnit st region (mkRanked movies)).movie_city_count t =
      (if region ∈ lookupMembers st.movie_city_count t
       then lookupMembers st.movie_city_count t
       else lookupMembers st.movie_city_count t ++ [region]) := by
  obtain ⟨hr1, hr8⟩ := mem_mkRanked_rank hmem
  refine ⟨hr1, hr8, ?_, ?_, ?_⟩
  · rw [foldUnit_points, filter_snd_eq_singleton ?hnodup hmem]
    · simp
    case hnodup => rw [mkRanked_map_snd]; exact hnd
  · have : (r : Int) ≤ 8 := by exact_mod_cast hr8
    omega
  · rw [foldUnit_members]
    have hex : ∃ p ∈ mkRanked movies, p.2 = t := ⟨(r, t), hmem, rfl⟩
    by_cases hreg : region ∈ lookupMembers st.movie_city_count t
    · rw [if_neg (fun hc => hc.2 hreg), if_pos hreg]
    · rw [if_pos ⟨hex, hreg⟩, if_neg hreg]

/-- C4 witness: a concrete eight-title payload — rank 1 earns 8 points,
rank 8 earns 1 point, and the rank-1 title gains one membership credit. -/
theorem ranked_mode_contribution_witness :
    (movies8.take 8).Nodup ∧ (1, "Alpha".toList) ∈ mkRanked movies8 ∧
    (8, "Theta".toList) ∈ mkRanked movies8 ∧
    lookupPoints (foldUnit initAgg "CityA".toList (mkRanked movies8)).movie_points
        "Alpha".toList =
      lookupPoints initAgg.movie_points "Alpha".toList + (9 - ((1 : Nat) : Int)) ∧
    lookupPoints (foldUnit initAgg "CityA".toList (mkRanked movies8)).movie_points
        "Theta".toList =
      lookupPoints initAgg.movie_points "Theta".toList + (9 - ((8 : Nat) : Int)) ∧
    lookupMembers (foldUnit initAgg "CityA".toList (mkRanked movies8)).movie_city_count
        "Alpha".toList =
      (if "CityA".toList ∈ lookupMembers initAgg.movie_city_count "Alpha".toList
       then lookupMembers initAgg.movie_city_count "Alpha".toList
       else lookupMembers initAgg.movie_city_count "Alpha".toList ++ ["CityA".toList]) :=
  ⟨by decide, by decide, by decide,
   (ranked_mode_contribution movies8 initAgg _ 1 _ (by decide) (by decide)).2.2.1,
   (ranked_mode_contribution movies8 initAgg _ 8 _ (by decide) (by decide)).2.2.1,
   (ranked_mode_contribution movies8 initAgg _ 1 _ (by decide) (by decide)).2.2.2.2⟩

/-- C8 counterexample: a checkpoint entry whose rank key parses beyond
the written range (`"rank10"`) contributes `9 - 10 = -1` points — the fold
strictly DECREASES the title's total, refuting monotonicity under
arbitrary checkpoint payloads. -/
theorem checkpoint_decrements :
    lookupPoints (foldCheckpointEntry initAgg "CityA".toList
        ("rank10".toList, "X".toList)).movie_points "X".toList <
      lookupPoints initAgg.movie_points "X".toList := by decide

/-- C8 (amended): a fold step whose rank key parses to a rank between 1
and 8 — the only shape the program itself ever writes — never decreases
any title's total and adds the strictly positive amount `9 - r` to the
entry's title. -/
theorem checkpoint_fold_monotone (st : AggState) (region key title : List Char)
    (r : Int) (hp : parseRank key = some r) (h1 : 1 ≤ r) (h8 : r ≤ 8) :
    (∀ t, lookupPoints st.movie_points t ≤
      lookupPoints (foldCheckpointEntry st region (key, title)).movie_points t) ∧
    lookupPoints (foldCheckpointEntry st region (key, title)).movie_points title =
      lookupPoints st.movie_points title + (9 - r) ∧
    1 ≤ 9 - r := by
  unfold foldCheckpointEntry
  dsimp only
  rw [hp]
  refine ⟨?_, ?_, by omega⟩
  · intro t
    rw [lookupPoints_addPoints]
    by_cases h : title = t
    · simp only [if_pos h]; omega
    · simp [h]
  · rw [lookupPoints_addPoints, if_pos rfl]

/-- C8 witness: the amended monotonicity applied to a concrete
`"rank3"` checkpoint entry. -/
theorem checkpoint_fold_monotone_witness :
    parseRank "rank3".toList = some 3 ∧
    lookupPoints (foldCheckpointEntry initAgg "CityA".toList
        ("rank3".toList, "X".toList)).movie_points "X".toList =
      lookupPoints initAgg.movie_points "X".toList + (9 - 3) :=
  ⟨by decide,
   (checkpoint_fold_monotone initAgg _ _ _ 3 (by decide) (by decide) (by decide)).2.1⟩

/-! ## Run accounting (for C1) -/

theorem runAttempts_failures_shape (env : Nat → AttemptOutcome) (city : City) :
    ∀ (attempts : List Nat) (gen resets : Nat) (backoffs idents : List Nat),
      (runAttempts env city attempts gen resets backoffs idents).failures.length ≤ 1 ∧
      ((runAttempts env city attempts gen resets backoffs idents).failures ≠ [] →
        (runAttempts env city attempts gen resets backoffs idents).ranked = []) := by
  intro attempts
  induction attempts with
  | nil => intro gen resets backoffs idents; simp [runAttempts]
  | cons a rest ih =>
    intro gen resets backoffs idents
    cases hc : classify (env a) with
    | blocked => simpa [runAttempts, hc] using ih (gen + 1) (resets + 1) _ _
    | success hits => simp [runAttempts, hc]
    | error m =>
      by_cases ha : a = RETRY_LIMIT - 1
      · subst ha
        simp [runAttempts, hc]
      · simpa [runAttempts, hc, ha] using ih gen resets _ _

/-- Each unit appends at most one failure record, and only when its
returned dict is empty. -/
theorem fetch_failures_shape (env : Nat → AttemptOutcome) (city : City) :
    (fetch_movies_for_city env city).failures.length ≤ 1 ∧
    ((fetch_movies_for_city env city).failures ≠ [] →
      (fetch_movies_for_city env city).ranked = []) :=
  runAttempts_failures_shape env city _ _ _ _ _

theorem counts_le (rs : List FetchResult)
    (h : ∀ r ∈ rs, r.failures.length ≤ 1 ∧ (r.failures ≠ [] → r.ranked = [])) :
    (failLog rs).length + successCount rs ≤ rs.length := by
  induction rs with
  | nil => simp [failLog, successCount]
  | cons r rest ih =>
    have hr := h r (by simp)
    have hrest := ih fun x hx => h x (by simp [hx])
    have hfl : (failLog (r :: rest)).length =
        r.failures.length + (failLog rest).length := by
      simp [failLog]
    by_cases hre : r.ranked.isEmpty
    · have hsc : successCount (r :: rest) = successCount rest := by
        simp [successCount, List.filter_cons, hre]
      rw [hfl, hsc]
      simp only [List.length_cons]
      omega
    · have hsc : successCount (r :: rest) = 1 + successCount rest := by
        simp [successCount, List.filter_cons, hre]
        omega
      have hfe : r.failures = [] := by
        by_contra hne
        have hrk := hr.2 hne
        rw [hrk] at hre
        simp at hre
      rw [hfl, hsc, hfe]
      simp only [List.length_nil, List.length_cons]
      omega

/-- C1 counterexample: a single unit blocked on every attempt yields an
empty UnitResult but NO FailureRecord, so FailureLog size (0) plus
successfully harvested units (0) is not the unit count (1), and the
1:1 correspondence between FailureLog entries and empty-result units
fails. -/
theorem run_accounting_fails :
    (failLog (runAll [(city0, envAllBlocked)])).length +
        successCount (runAll [(city0, envAllBlocked)]) ≠
      [(city0, envAllBlocked)].length := by decide

/-- C1 (amended): every WorkUnit yields exactly one UnitResult; each unit
appends at most one FailureRecord and only when its UnitResult is empty;
hence FailureLog size + successful-unit count is at most — not equal to —
the total unit count (all-blocked exhaustion and structurally-empty
successes produce empty results without FailureRecords). -/
theorem run_accounting (units : List (City × (Nat → AttemptOutcome))) :
    (runAll units).length = units.length ∧
    (failLog (runAll units)).length + successCount (runAll units) ≤ units.length ∧
    ∀ r ∈ runAll units,
      r.failures.length ≤ 1 ∧ (r.failures ≠ [] → r.ranked = []) := by
  have hshape : ∀ r ∈ runAll units,
      r.failures.length ≤ 1 ∧ (r.failures ≠ [] → r.ranked = []) := by
    intro r hr
    obtain ⟨u, hu, rfl⟩ := List.mem_map.mp hr
    exact fetch_failures_shape u.2 u.1
  refine ⟨by simp [runAll], ?_, hshape⟩
  have hc := counts_le (runAll units) hshape
  simpa [runAll] using hc

/-- C1 witness: the accounting theorem applied to a concrete
one-unit run whose attempts all time out. -/
theorem run_accounting_witness :
    (runAll [(city0, envAllTimeout)]).length = 1 ∧
    (fetch_movies_for_city envAllTimeout city0).failures.length ≤ 1 :=
  ⟨(run_accounting [(city0, envAllTimeout)]).1,
   ((run_accounting [(city0, envAllTimeout)]).2.2 _ (by decide)).1⟩

/-! ## Leaderboard lemmas (for C5) -/

theorem sortByPointsDesc_filter (m : List (List Char × Int)) (v : Int) :
    (sortByPointsDesc m).filter (fun p => p.2 == v) = m.filter (fun p => p.2 == v) := by
  have hpw : (m.filter (fun p => p.2 == v)).Pairwise pointsGE := by
    apply List.pairwise_of_forall_mem_list
    intro a ha b hb
    have ha2 : a.2 = v := by simpa using (List.mem_filter.mp ha).2
    have hb2 : b.2 = v := by simpa using (List.mem_filter.mp hb).2
    show b.2 ≤ a.2
    rw [ha2, hb2]
  have hsub : List.Sublist (m.filter (fun p => p.2 == v)) (sortByPointsDesc m) :=
    List.sublist_insertionSort hpw (List.filter_sublist m)
  have hsub2 : List.Sublist (m.filter (fun p => p.2 == v))
      ((sortByPointsDesc m).filter (fun p => p.2 == v)) := by
    have hff := hsub.filter (fun p => p.2 == v)
    simpa [List.filter_filter] using hff
  have hlen : ((sortByPointsDesc m).filter (fun p => p.2 == v)).length =
      (m.filter (fun p => p.2 == v)).length :=
    ((List.perm_insertionSort pointsGE m).filter _).length_eq
  exact (hsub2.eq_of_length hlen.symm).symm

/-- C5: the leaderboard is the 20-element truncation of a sort of the
points map that is (i) descending in points, (ii) a permutation of the
map's entries, and (iii) stable — entries with any fixed point total keep
their first-seen relative order; its length is `min 20 (number of titles)`. -/
theorem top_movies_spec (m : List (List Char × Int)) :
    top_movies m = (sortByPointsDesc m).take 20 ∧
    (sortByPointsDesc m).Sorted pointsGE ∧
    (sortByPointsDesc m).Perm m ∧
    (top_movies m).length = min 20 m.length ∧
    ∀ v, (sortByPointsDesc m).filter (fun p => p.2 == v) =
      m.filter (fun p => p.2 == v) := by
  refine ⟨rfl, List.sorted_insertionSort pointsGE m,
    List.perm_insertionSort pointsGE m, ?_, sortByPointsDesc_filter m⟩
  show ((sortByPointsDesc m).take 20).length = min 20 m.length
  rw [List.length_take]
  unfold sortByPointsDesc
  rw [(List.perm_insertionSort pointsGE m).length_eq]

/-! ## Tweet-length bound (for C10) -/

theorem buildBody_length (header : List Char) (st : AggState) :
    ∀ (entries : List (List Char × Int)) (idx : Nat) (body : List Char),
      (header ++ body).length ≤ char_limit →
      (header ++ buildBody header st entries idx body).length ≤ char_limit := by
  intro entries
  induction entries with
  | nil => intro idx body h; simpa [buildBody] using h
  | cons mp rest ih =>
    intro idx body h
    obtain ⟨movie, points⟩ := mp
    rw [buildBody]
    by_cases hc : (header ++ body ++ tweetLine idx movie points
        (lookupMembers st.movie_city_count movie).length).length ≤ char_limit
    · rw [if_pos hc]
      apply ih
      rw [← List.append_assoc]
      exact hc
    · rw [if_neg hc]
      exact h

/-- C10: the composed tweet — header plus the lines accepted by the
280-character guard, body stripped — never exceeds the character limit,
for every state of the accumulated maps (provided the fixed-format header
itself fits, which every real date satisfies). -/
theorem tweet_within_limit (tweetDate : List Char) (st : AggState)
    (h : (tweetHeader tweetDate).length ≤ char_limit) :
    (finalTweet tweetDate st).length ≤ char_limit := by
  unfold finalTweet
  have hb := buildBody_length (tweetHeader tweetDate) st
    (top_movies st.movie_points) 1 [] (by simpa using h)
  have hs := stripChars_length_le
    (buildBody (tweetHeader tweetDate) st (top_movies st.movie_points) 1 [])
  rw [List.length_append] at *
  omega

/-- C10 witness: the bound at a concrete date and a concrete folded
state. -/
theorem tweet_within_limit_witness :
    (tweetHeader "12 October 2025".toList).length ≤ char_limit ∧
    (finalTweet "12 October 2025".toList
        (foldResults [urAlpha, urBeta])).length ≤ char_limit :=
  ⟨by decide, tweet_within_limit _ _ (by decide)⟩

end BMS
